import Mathlib

/-!
Verification development for the PocolVM toolchain: a shallow embedding of
the interpreter core (src/pm/vm.c, src/pm/vm.h), the little-endian codec
(src/posm/compiler.c pocol_write64 / src/pm/vm.c pocol_fetch64), the symbol
table (src/posm/symbol.c) and the assembler (src/posm/compiler.c lexer and
parser), together with theorems about the behaviour of those functions.

Modelling conventions:
  * machine integers are Nat (unsigned) or Int (signed) with explicit
    reductions mod 2 ^ 64 or mod 256 where the C types wrap;
  * the byte array memory[POCOL_MEMORY_SIZE] is a total function Nat → Nat
    whose reads are taken mod 256 (uint8 cells); a C read at an index at or
    past POCOL_MEMORY_SIZE is out of bounds and is made explicit as a
    distinct outcome (the C program has undefined behaviour there);
  * pocol_fetch64 in vm.c calls exit() on its bounds failure rather than
    returning; that is the distinct outcome `exited`;
  * the INST_SYS instruction with a live syscall context dispatches host
    system calls (vm_syscalls.c: file IO, clock, sleep); those host effects
    are outside the model, so that branch is the distinct outcome
    `sysEffect` carrying the machine state at dispatch time (the handlers in
    vm_syscalls.c never touch pc or sp); with a NULL context the C code just
    writes -1 into register 0, which is modelled exactly;
  * stdout produced by INST_PRINT is not modelled (no claim concerns it).
-/

namespace PocolVM

/-- POCOL_MEMORY_SIZE from src/pm/vm.h: (640 * 1000). -/
def POCOL_MEMORY_SIZE : Nat := 640 * 1000

/-- POCOL_STACK_SIZE from src/pm/vm.h. -/
def POCOL_STACK_SIZE : Nat := 1024

/-- Err from src/pm/vm.h, in declaration order (ERR_OK = 0, ...). -/
inductive Err where
  | ERR_OK
  | ERR_ILLEGAL_INST
  | ERR_ILLEGAL_INST_ACCESS
  | ERR_STACK_OVERFLOW
  | ERR_STACK_UNDERFLOW
deriving DecidableEq, Repr

/-- Inst_Type numeric identities from src/pm/vm.h (INST_HALT = 0, ...). -/
def INST_HALT : Nat := 0

def INST_PUSH : Nat := 1

def INST_POP : Nat := 2

def INST_ADD : Nat := 3

def INST_JMP : Nat := 4

def INST_PRINT : Nat := 5

def INST_SYS : Nat := 6

/-- OperandType from src/pm/vm.h. -/
def OPR_NONE : Nat := 0

def OPR_REG : Nat := 1

def OPR_IMM : Nat := 2

/-- PocolVM from src/pm/vm.h, restricted to the interpreter-visible fields.
The syscall context pointer is kept only as presence (`syscallCtx`). -/
structure VMState where
  memory : Nat → Nat
  pc : Nat
  stack : Nat → Nat
  sp : Nat
  registers : Nat → Nat
  halt : Bool
  syscallCtx : Bool

/-- Pointwise array update, modelling an assignment `a[i] = v`. -/
def updFn (f : Nat → Nat) (i v : Nat) : Nat → Nat :=
  fun j => if j = i then v else f j

/-- One uint8 cell of vm->memory (reads are mod 256). -/
def byteAt (s : VMState) (a : Nat) : Nat := s.memory a % 256

/-- The opcode byte the dispatcher reads at pc. -/
def opcodeOf (s : VMState) : Nat := byteAt s s.pc

/-- The descriptor byte the dispatcher reads at pc + 1. -/
def descOf (s : VMState) : Nat := byteAt s (s.pc + 1)

/-- Result of a fetch helper: a value plus the advanced state, a process
exit (pocol_fetch64 calls exit on bounds failure), or an out-of-bounds
C array read. -/
inductive FetchRes where
  | val (v : Nat) (s : VMState)
  | exited (code : Err)
  | oob (addr : Nat)

/-- Little-endian reassembly of a byte list, as memcpy into a uint64 does
on the little-endian hosts the code targets. -/
def leDecode : List Nat → Nat
  | [] => 0
  | b :: bs => b + 256 * leDecode bs

/-- The n bytes of memory starting at address p. -/
def bytesAt (s : VMState) (p n : Nat) : List Nat :=
  (List.range n).map (fun i => byteAt s (p + i))

/-- pocol_fetch64 from src/pm/vm.c: guarded by pc + 8 >= POCOL_MEMORY_SIZE,
in which case the C function prints and calls exit(ERR_ILLEGAL_INST_ACCESS);
otherwise it memcpy-decodes 8 bytes at pc and advances pc by 8. -/
def pocol_fetch64 (s : VMState) : FetchRes :=
  if s.pc + 8 ≥ POCOL_MEMORY_SIZE then .exited .ERR_ILLEGAL_INST_ACCESS
  else .val (leDecode (bytesAt s s.pc 8)) { s with pc := s.pc + 8 }

/-- pocol_fetch_operand from src/pm/vm.c: OPR_REG reads one byte (the macro
NEXT, an unguarded memory[pc++] access) and indexes the register file with
its low 3 bits; OPR_IMM is pocol_fetch64; any other kind yields 0 without
consuming bytes. -/
def pocol_fetch_operand (s : VMState) (ty : Nat) : FetchRes :=
  if ty = OPR_REG then
    if s.pc ≥ POCOL_MEMORY_SIZE then .oob s.pc
    else .val (s.registers (byteAt s s.pc % 8)) { s with pc := s.pc + 1 }
  else if ty = OPR_IMM then pocol_fetch64 s
  else .val 0 s

/-- Outcome of one call to pocol_execute_inst: a C return value together
with the mutated state, a process exit from pocol_fetch64, an out-of-bounds
C array read, or a host system-call dispatch (INST_SYS with a live context;
the carried state is the machine at dispatch time). -/
inductive StepOutcome where
  | ok (e : Err) (s : VMState)
  | exited (code : Err)
  | oobRead (addr : Nat)
  | sysEffect (s : VMState)

/-- pocol_execute_inst from src/pm/vm.c: guard pc >= POCOL_MEMORY_SIZE,
read the opcode byte and the descriptor byte (the descriptor read at pc + 1
is unguarded), advance pc by 2, then dispatch on the opcode exactly as the
switch does. -/
def pocol_execute_inst (s : VMState) : StepOutcome :=
  if s.pc ≥ POCOL_MEMORY_SIZE then .ok .ERR_ILLEGAL_INST_ACCESS s
  else if s.pc + 1 ≥ POCOL_MEMORY_SIZE then .oobRead (s.pc + 1)
  else
    let op := opcodeOf s
    let desc := descOf s
    let op1 := desc % 16
    let op2 := desc / 16
    let s2 : VMState := { s with pc := s.pc + 2 }
    if op = INST_HALT then .ok .ERR_OK { s2 with halt := true }
    else if op = INST_PUSH then
      if s2.sp ≥ POCOL_STACK_SIZE then .ok .ERR_STACK_OVERFLOW s2
      else
        match pocol_fetch_operand s2 op1 with
        | .val v s3 => .ok .ERR_OK { s3 with stack := updFn s3.stack s3.sp v, sp := s3.sp + 1 }
        | .exited c => .exited c
        | .oob a => .oobRead a
    else if op = INST_POP then
      if s2.sp = 0 then .ok .ERR_STACK_UNDERFLOW s2
      else if s2.pc ≥ POCOL_MEMORY_SIZE then .oobRead s2.pc
      else
        .ok .ERR_OK { s2 with
          pc := s2.pc + 1,
          registers := updFn s2.registers (byteAt s2 s2.pc % 8) (s2.stack (s2.sp - 1)),
          sp := s2.sp - 1 }
    else if op = INST_ADD then
      if s2.pc ≥ POCOL_MEMORY_SIZE then .oobRead s2.pc
      else
        let d := byteAt s2 s2.pc % 8
        let s3 : VMState := { s2 with pc := s2.pc + 1 }
        match pocol_fetch_operand s3 op2 with
        | .val v s4 => .ok .ERR_OK { s4 with registers := updFn s4.registers d ((s4.registers d + v) % 2 ^ 64) }
        | .exited c => .exited c
        | .oob a => .oobRead a
    else if op = INST_JMP then
      match pocol_fetch_operand s2 op1 with
      | .val v s3 => .ok .ERR_OK { s3 with pc := v }
      | .exited c => .exited c
      | .oob a => .oobRead a
    else if op = INST_PRINT then
      match pocol_fetch_operand s2 op1 with
      | .val _ s3 => .ok .ERR_OK s3
      | .exited c => .exited c
      | .oob a => .oobRead a
    else if op = INST_SYS then
      if s2.syscallCtx then .sysEffect s2
      else .ok .ERR_OK { s2 with registers := updFn s2.registers 0 (2 ^ 64 - 1) }
    else .ok .ERR_ILLEGAL_INST s2

/-- Outcome of pocol_execute_program: the returned Err with the final
state, or one of the abnormal outcomes inherited from a step (the error
report in the C loop itself reads memory[pc], which can also be out of
bounds; a host system-call dispatch stops the model). -/
inductive RunOutcome where
  | done (e : Err) (s : VMState)
  | exited (code : Err)
  | oobRead (addr : Nat)
  | sysStop (s : VMState)

/-- pocol_execute_program from src/pm/vm.c (the identical loop also appears
in src/pocolvm.c): while (limit != 0 && !vm->halt) execute one instruction;
a non-OK step result is reported (the report reads memory[vm->pc]) and
returned; otherwise the loop returns ERR_OK when the budget is exhausted or
halt is set. Non-negative C budgets are modelled by Nat. -/
def pocol_execute_program (s : VMState) : Nat → RunOutcome
  | 0 => .done .ERR_OK s
  | n + 1 =>
    if s.halt then .done .ERR_OK s
    else
      match pocol_execute_inst s with
      | .ok .ERR_OK s2 => pocol_execute_program s2 n
      | .ok e s2 => if s2.pc < POCOL_MEMORY_SIZE then .done e s2 else .oobRead s2.pc
      | .exited c => .exited c
      | .oobRead a => .oobRead a
      | .sysEffect s2 => .sysStop s2

/-- A run of n dispatches in which halt is never set and every dispatched
instruction returns ERR_OK (the hypothesis of claim C10). -/
def okSteps (s : VMState) : Nat → Option VMState
  | 0 => if s.halt then none else some s
  | n + 1 =>
    if s.halt then none
    else
      match pocol_execute_inst s with
      | .ok .ERR_OK s2 => okSteps s2 n
      | _ => none

/-- pocol_write64 from src/posm/compiler.c (the same loop is emit64 in
src/posm/emit.h): bytes[i] = (val >> (i * 8)) & 0xFF for i = 0..7. -/
def pocol_write64 (val : Nat) : List Nat :=
  (List.range 8).map (fun i => (val >>> (i * 8)) % 256)

end PocolVM

namespace Posm

/-!
Embedding of the assembler in src/posm: the lexer (the identical token
scanner appears in src/posm/lexer.c in context-passing form and as static
functions in src/posm/compiler.c), the symbol table (src/posm/symbol.c) and
the single-pass compiler (src/posm/compiler.c).

The mmap-backed source buffer is a List Char; reading at or past its end
yields the NUL character (mmap zero-fill), and a NUL byte ends lexing, as
in the C code. The mutable globals cursor/line/col are a LexState value;
the lexing functions are pure and return the diagnostics they print as a
list, so that peek (which saves and restores cursor/line/col but not the
global error count) simply drops the returned state while keeping the
diagnostics. The C loops are written with an explicit fuel of
src.length + 1, which is sufficient because every iteration of each loop
advances the cursor by at least one and the cursor never moves past the
position of the terminating NUL (at most src.length).
-/

/-- One character of the source buffer; NUL past the end. -/
def charAt (src : List Char) (i : Nat) : Char := src.getD i (Char.ofNat 0)

/-- isspace from ctype.h in the C locale (ASCII). -/
def isSpaceC (c : Char) : Bool :=
  c = ' ' || c = '\t' || c = '\n' || c.toNat = 11 || c.toNat = 12 || c = '\r'

/-- isdigit from ctype.h. -/
def isDigitC (c : Char) : Bool := 48 ≤ c.toNat && c.toNat ≤ 57

/-- isalpha from ctype.h in the C locale (ASCII). -/
def isAlphaC (c : Char) : Bool :=
  (65 ≤ c.toNat && c.toNat ≤ 90) || (97 ≤ c.toNat && c.toNat ≤ 122)

/-- isalnum from ctype.h in the C locale (ASCII). -/
def isAlnumC (c : Char) : Bool := isAlphaC c || isDigitC c

/-- The lexer cursor state: the globals cursor, line, col of
src/posm/compiler.c (fields of CompilerCtx in src/posm/lexer.c). -/
structure LexState where
  cursor : Nat
  line : Nat
  col : Nat
deriving DecidableEq, Repr

/-- consume from src/posm/compiler.c and src/posm/lexer.c: does nothing on
NUL, tracks line/column, advances the cursor. -/
def consume (src : List Char) (l : LexState) : LexState :=
  let c := charAt src l.cursor
  if c = Char.ofNat 0 then l
  else if c = '\n' then { cursor := l.cursor + 1, line := l.line + 1, col := 1 }
  else { cursor := l.cursor + 1, line := l.line, col := l.col + 1 }

/-- Fueled loop body of consume_until_newline. -/
def cunAux (src : List Char) : Nat → LexState → LexState
  | 0, l => l
  | f + 1, l =>
    let c := charAt src l.cursor
    if c ≠ '\n' ∧ c ≠ Char.ofNat 0 then cunAux src f (consume src l) else l

/-- consume_until_newline from src/posm/compiler.c: while the current
character is neither a newline nor NUL, consume. -/
def consume_until_newline (src : List Char) (l : LexState) : LexState :=
  cunAux src (src.length + 1) l

/-- Fueled loop body of the whitespace/comma/comment skipper that opens
next. -/
def skipAux (src : List Char) : Nat → LexState → LexState
  | 0, l => l
  | f + 1, l =>
    let c := charAt src l.cursor
    if c = Char.ofNat 0 then l
    else if isSpaceC c || c = ',' then skipAux src f (consume src l)
    else if c = ';' then skipAux src f (consume_until_newline src l)
    else l

/-- The while loop at the top of next: skip whitespace and commas, and skip
comments introduced by a semicolon through the end of the line. -/
def skipWs (src : List Char) (l : LexState) : LexState :=
  skipAux src (src.length + 1) l

/-- Fueled decimal-digit scanner: accumulated value and end position. -/
def digitsAux (src : List Char) : Nat → Nat → Nat → Nat × Nat
  | 0, i, acc => (acc, i)
  | f + 1, i, acc =>
    let c := charAt src i
    if isDigitC c then digitsAux src f (i + 1) (acc * 10 + (c.toNat - 48)) else (acc, i)

/-- Scan the maximal run of decimal digits starting at i. -/
def digitsFrom (src : List Char) (i : Nat) : Nat × Nat :=
  digitsAux src (src.length + 1) i 0

/-- strtol(cursor, &end, 10) as called from next: the call site guarantees
the text starts with a digit or a minus sign followed by a digit, so only
that shape is modelled. Returns the value clamped to the 64-bit long range,
the number of characters consumed (end - cursor), and the ERANGE flag. -/
def strtolAt (src : List Char) (i : Nat) : Int × Nat × Bool :=
  let neg := charAt src i = '-'
  let start := if neg then i + 1 else i
  let d := digitsFrom src start
  let raw : Int := if neg then -(d.1 : Int) else (d.1 : Int)
  let len := d.2 - i
  if raw > 2 ^ 63 - 1 then (2 ^ 63 - 1, len, true)
  else if raw < -(2 ^ 63) then (-(2 ^ 63), len, true)
  else (raw, len, false)

/-- atoi(t.start + 1) as called from next for a register suffix: the value
of the digit run at i (overflow of atoi is undefined in C and left exact
here; register suffixes are single digits in practice). -/
def atoiAt (src : List Char) (i : Nat) : Int := ((digitsFrom src i).1 : Int)

/-- Consume n characters (the for loop that consumes an integer token). -/
def consumeN (src : List Char) : Nat → LexState → LexState
  | 0, l => l
  | n + 1, l => consumeN src n (consume src l)

/-- TokenType from src/posm/compiler.h. -/
inductive TokenType where
  | TOK_EOF
  | TOK_ILLEGAL
  | TOK_INT
  | TOK_LABEL
  | TOK_IDENT
  | TOK_REGISTER
deriving DecidableEq, Repr

/-- Token from src/posm/compiler.h: type, source span (start offset and
length), and the int64 value for integer and register tokens. -/
structure Token where
  type : TokenType
  start : Nat
  length : Nat
  value : Int
deriving DecidableEq, Repr

/-- The diagnostics compiler_error can print, one constructor per call
site; compiler_error also increments the global error count (the length of
the diagnostics list here) and consumes the rest of the offending line. -/
inductive AsmErr where
  | illegalChar (c : Char)
  | intOutOfRange
  | identNotDefined (n : List Char)
  | duplicateLabel (n : List Char)
  | unknownInst (n : List Char)
  | compileFailed (total : Nat)
deriving DecidableEq, Repr

/-- Fueled loop body of the identifier-run scanner inside next. -/
def idAux (src : List Char) : Nat → LexState → LexState
  | 0, l => l
  | f + 1, l =>
    let c := charAt src l.cursor
    if isAlnumC c || c = '_' then idAux src f (consume src l) else l

/-- The while loop inside next that consumes an identifier run (letters,
digits, underscores). -/
def identEnd (src : List Char) (l : LexState) : LexState :=
  idAux src (src.length + 1) l

/-- next from src/posm/compiler.c (identical logic in src/posm/lexer.c):
skip separators and comments, then produce one token. Returns the token,
the new cursor state, and the diagnostics printed while scanning. On an
out-of-range integer, compiler_error consumes to the end of the line and
the token loop then consumes length more characters from there, exactly as
the C code does. An illegal character is reported (consuming the rest of
the line) and then consumed. -/
def next (src : List Char) (l : LexState) : Token × LexState × List AsmErr :=
  let l1 := skipWs src l
  let c := charAt src l1.cursor
  if c = Char.ofNat 0 then
    ({ type := .TOK_EOF, start := l1.cursor, length := 0, value := 0 }, l1, [])
  else if isDigitC c || (c = '-' && isDigitC (charAt src (l1.cursor + 1))) then
    let r := strtolAt src l1.cursor
    let l2 := if r.2.2 then consume_until_newline src l1 else l1
    let l3 := consumeN src r.2.1 l2
    ({ type := .TOK_INT, start := l1.cursor, length := r.2.1, value := r.1 }, l3,
      if r.2.2 then [.intOutOfRange] else [])
  else if isAlphaC c || c = '_' then
    let l2 := identEnd src l1
    if charAt src l2.cursor = ':' then
      ({ type := .TOK_LABEL, start := l1.cursor, length := l2.cursor - l1.cursor, value := 0 },
        consume src l2, [])
    else if c = 'r' then
      ({ type := .TOK_REGISTER, start := l1.cursor, length := 0,
         value := if isDigitC (charAt src (l1.cursor + 1)) then atoiAt src (l1.cursor + 1) else 0 },
        l2, [])
    else
      ({ type := .TOK_IDENT, start := l1.cursor, length := l2.cursor - l1.cursor, value := 0 },
        l2, [])
  else
    ({ type := .TOK_ILLEGAL, start := l1.cursor, length := 0, value := 0 },
      consume src (consume_until_newline src l1), [.illegalChar c])

/-- Fueled body of peek: run next k + 1 times, keeping diagnostics. -/
def peekAux (src : List Char) : Nat → LexState → List AsmErr → Token × List AsmErr
  | 0, l, es =>
    let a := next src l
    (a.1, es ++ a.2.2)
  | k + 1, l, es =>
    let a := next src l
    peekAux src k a.2.1 (es ++ a.2.2)

/-- peek from src/posm/compiler.c: scan n + 1 tokens ahead, then restore
cursor, line and column (modelled by discarding the scan state); the
diagnostics printed during the scan, and the global error count, are not
restored, so they are returned. -/
def peek (src : List Char) (l : LexState) (n : Nat) : Token × List AsmErr :=
  peekAux src n l []

/-- SymbolKind from src/posm/symbol.h. -/
inductive SymbolKind where
  | SYM_LABEL
deriving DecidableEq, Repr

/-- SymData from src/posm/symbol.h: name, kind, and the label payload
(pc and is_defined). -/
structure SymData where
  name : List Char
  kind : SymbolKind
  pc : Nat
  is_defined : Bool
deriving DecidableEq, Repr

/-- pocol_symfind from src/posm/symbol.c: first symbol matching kind and
name, scanning in insertion order. -/
def pocol_symfind : List SymData → SymbolKind → List Char → Option SymData
  | [], _, _ => none
  | d :: rest, k, n => if d.kind = k ∧ d.name = n then some d else pocol_symfind rest k n

/-- pocol_sympush from src/posm/symbol.c: -1 (table unchanged) if a symbol
with the same kind and name exists, else 0 after appending. -/
def pocol_sympush (tbl : List SymData) (d : SymData) : Int × List SymData :=
  if (pocol_symfind tbl d.kind d.name).isSome then (-1, tbl) else (0, tbl ++ [d])

/-- The parser state threaded through pocol_compile_file: the lexer
globals, the lookahead token, the symbol table, the bytes written to the
output stream so far (ftell is its length), and the diagnostics printed so
far (the global error count is the length of this list). -/
structure PState where
  lex : LexState
  look : Token
  syms : List SymData
  out : List Nat
  errs : List AsmErr
deriving DecidableEq, Repr

/-- The source text of a token (the length-bounded slice at its start). -/
def tokStr (src : List Char) (t : Token) : List Char :=
  (src.drop t.start).take t.length

/-- Inst_Def from src/pm/vm.h as used by the table in src/posm/compiler.c. -/
structure InstDef where
  name : Option (List Char)
  type : Nat
  operand : Nat

/-- inst_table from src/posm/compiler.c: designated initializers for halt,
push, pop, add and print; the INST_JMP and INST_SYS slots have no
initializer and are zero-filled, so their name pointers are NULL. -/
def inst_table : List InstDef :=
  [ { name := some ("halt".toList), type := 0, operand := 0 },
    { name := some ("push".toList), type := 1, operand := 1 },
    { name := some ("pop".toList), type := 2, operand := 1 },
    { name := some ("add".toList), type := 3, operand := 2 },
    { name := none, type := 0, operand := 0 },
    { name := some ("print".toList), type := 5, operand := 1 },
    { name := none, type := 0, operand := 0 } ]

/-- Result of the mnemonic search in parse_inst: a matching entry, the
undefined behaviour of strncmp on a NULL name pointer (reached for any
mnemonic other than halt, push, pop and add, because the zero-filled
INST_JMP slot is scanned before print), or exhaustion of the table. -/
inductive SearchRes where
  | found (d : InstDef)
  | ubNullName
  | notFound

/-- The for loop over inst_table in parse_inst; strncmp over the token
span combined with the strlen check amounts to string equality. -/
def searchAux (mn : List Char) : List InstDef → SearchRes
  | [] => .notFound
  | d :: rest =>
    match d.name with
    | none => .ubNullName
    | some nm => if nm = mn then .found d else searchAux mn rest

/-- The mnemonic lookup of parse_inst. -/
def searchInst (mn : List Char) : SearchRes := searchAux mn inst_table

/-- The operand classification in parse_inst: register tokens are OPR_REG,
integer and identifier tokens are OPR_IMM, anything else stays OPR_NONE. -/
def operandKindOf (t : Token) : Nat :=
  if t.type = .TOK_REGISTER then 1
  else if t.type = .TOK_INT ∨ t.type = .TOK_IDENT then 2
  else 0

/-- The classification loop of parse_inst: peek(i) for each declared
operand slot (operand counts in the table are 0, 1 or 2). -/
def classify (src : List Char) (l : LexState) : Nat → (Nat × Nat) × List AsmErr
  | 0 => ((0, 0), [])
  | 1 =>
    let p0 := peek src l 0
    ((operandKindOf p0.1, 0), p0.2)
  | _ =>
    let p0 := peek src l 0
    let p1 := peek src l 1
    ((operandKindOf p0.1, operandKindOf p1.1), p0.2 ++ p1.2)

/-- The conversion (uint64_t)p->lookahead.value. -/
def u64ofInt (v : Int) : Nat := (v % (2 ^ 64 : Int)).toNat

/-- One iteration of the operand-emission loop of parse_inst (compiler.c
lines 245..266) for the slot kind ty: an identifier lookahead is resolved
through the symbol table (its label pc replaces the value) or reported as
not defined; then one byte is written for an OPR_REG slot and eight
little-endian bytes otherwise, and the parser advances. -/
def emitOperandStep (src : List Char) (st : PState) (ty : Nat) : PState :=
  let val0 := u64ofInt st.look.value
  let r : Nat × List AsmErr × LexState :=
    if st.look.type = .TOK_IDENT then
      let n := tokStr src st.look
      match pocol_symfind st.syms .SYM_LABEL n with
      | some sd => (sd.pc, [], st.lex)
      | none => (val0, [.identNotDefined n], consume_until_newline src st.lex)
    else (val0, [], st.lex)
  let out1 := st.out ++ (if ty = 1 then [r.1 % 256] else PocolVM.pocol_write64 r.1)
  let a := next src r.2.2
  { lex := a.2.1, look := a.1, syms := st.syms, out := out1, errs := st.errs ++ r.2.1 ++ a.2.2 }

/-- parse_inst from src/posm/compiler.c: search the instruction table
(none models the strncmp-on-NULL undefined behaviour), classify the
declared operand slots by peeking, write the opcode and descriptor bytes,
then run the operand-emission loop; returns 0 on the normal path and -1
when the table is exhausted. -/
def parse_inst (src : List Char) (st : PState) : Option (Int × PState) :=
  match searchInst (tokStr src st.look) with
  | .ubNullName => none
  | .notFound => some (-1, st)
  | .found d =>
    let c := classify src st.lex d.operand
    let k1 := c.1.1
    let k2 := c.1.2
    let desc := k2 * 16 + k1
    let a := next src st.lex
    let st1 : PState := { lex := a.2.1, look := a.1, syms := st.syms,
                          out := st.out ++ [d.type, desc], errs := st.errs ++ c.2 ++ a.2.2 }
    let st2 := if d.operand = 0 then st1
               else if d.operand = 1 then emitOperandStep src st1 k1
               else emitOperandStep src (emitOperandStep src st1 k1) k2
    some (0, st2)

/-- One iteration of the compile loop in pocol_compile_file: a label
definition is pushed into the symbol table (a duplicate is reported) and
the rest of its line is skipped; an identifier is parsed as an instruction
(with the dead fallback paths for a -1 return modelled as written); any
other token is skipped. None is the undefined behaviour bubbling up from
parse_inst. -/
def compileStep (src : List Char) (st : PState) : Option PState :=
  if st.look.type = .TOK_LABEL then
    let n := tokStr src st.look
    let d : SymData := { name := n, kind := .SYM_LABEL, pc := st.out.length, is_defined := true }
    let p := pocol_sympush st.syms d
    let es1 : List AsmErr := if p.1 = -1 then [.duplicateLabel n] else []
    let lex1 := if p.1 = -1 then consume_until_newline src st.lex else st.lex
    let lex2 := consume_until_newline src lex1
    let a := next src lex2
    some { lex := a.2.1, look := a.1, syms := p.2, out := st.out, errs := st.errs ++ es1 ++ a.2.2 }
  else if st.look.type = .TOK_IDENT then
    let n := tokStr src st.look
    match parse_inst src st with
    | none => none
    | some (r, st2) =>
      if r = 0 then some st2
      else
        match pocol_symfind st2.syms .SYM_LABEL n with
        | some sd =>
          let a := next src st2.lex
          some { lex := a.2.1, look := a.1, syms := st2.syms,
                 out := st2.out ++ PocolVM.pocol_write64 sd.pc, errs := st2.errs ++ a.2.2 }
        | none =>
          let lexE := consume_until_newline src st2.lex
          let a := next src lexE
          some { lex := a.2.1, look := a.1, syms := st2.syms, out := st2.out,
                 errs := st2.errs ++ [.unknownInst n] ++ a.2.2 }
  else
    let a := next src st.lex
    some { lex := a.2.1, look := a.1, syms := st.syms, out := st.out, errs := st.errs ++ a.2.2 }

/-- Result of the compile loop: finished with a final parser state, ran
out of fuel, or reached undefined behaviour. -/
inductive CompRes where
  | outOfFuel
  | ub
  | done (st : PState)

/-- The while loop of pocol_compile_file, with explicit fuel. -/
def compileLoop (src : List Char) : Nat → PState → CompRes
  | 0, _ => .outOfFuel
  | f + 1, st =>
    if st.look.type = .TOK_EOF then .done st
    else
      match compileStep src st with
      | none => .ub
      | some st2 => compileLoop src f st2

/-- The four magic bytes fwrite(&magic_header, 4) emits before the loop:
0x6f636f70 little-endian. -/
def magicBytes : List Nat := [0x70, 0x6f, 0x63, 0x6f]

/-- The observable result of pocol_compile_file: its return value, the
bytes of the output stream, the diagnostics, whether the output file
survives (it is renamed into place on success and unlinked on failure),
and the symbol table (a module-level global in compiler.c, so it persists
past the call). -/
structure CompileOut where
  ret : Int
  out : List Nat
  errs : List AsmErr
  kept : Bool
  syms : List SymData
deriving DecidableEq, Repr

/-- The tail of pocol_compile_file after the loop: with a positive error
count a final diagnostic is printed, the temp file is unlinked and -1 is
returned; otherwise the object is renamed into place and 0 is returned. -/
def postprocess (st : PState) : CompileOut :=
  if st.errs.length > 0 then
    { ret := -1, out := st.out, errs := st.errs ++ [.compileFailed st.errs.length],
      kept := false, syms := st.syms }
  else
    { ret := 0, out := st.out, errs := st.errs, kept := true, syms := st.syms }

/-- pocol_compile_file from src/posm/compiler.c on an in-memory source
(the open/fstat/mmap plumbing and their OS-error paths are not modelled):
write the magic, initialize cursor and line, prime the lookahead, run the
loop, then finish. None covers fuel exhaustion and the undefined-behaviour
outcome. -/
def pocol_compile_file (src : List Char) (fuel : Nat) : Option CompileOut :=
  let l0 : LexState := { cursor := 0, line := 1, col := 1 }
  let a := next src l0
  let st0 : PState := { lex := a.2.1, look := a.1, syms := [], out := magicBytes, errs := a.2.2 }
  match compileLoop src fuel st0 with
  | .done st => some (postprocess st)
  | _ => none

end Posm

namespace PocolVM

/-! Theorems about the interpreter core and the integer codec. -/

lemma leDecode_write64 (v : Nat) : leDecode (pocol_write64 v) = v % 2 ^ 64 := by
  simp only [pocol_write64, List.range_succ, List.range_zero, List.map_append, List.map_cons,
    List.map_nil, List.nil_append, List.cons_append, leDecode, Nat.shiftRight_eq_div_pow]
  norm_num
  omega

/-- All-zero byte array used by concrete machine states below. -/
def zeroFn : Nat → Nat := fun _ => 0

/-- C9: decoding with pocol_fetch64 the 8 bytes produced by the
little-endian encoder pocol_write64 yields the original value, for every
64-bit input: the pure codec round-trips, and pocol_fetch64 run on a
memory holding pocol_write64 v at pc returns exactly v while advancing pc
by 8 (its bounds guard admits pc + 8 < POCOL_MEMORY_SIZE). -/
theorem write64_fetch64_roundtrip :
    ∀ v : Nat, v < 2 ^ 64 →
      leDecode (pocol_write64 v) = v ∧
      ∀ s : VMState, s.pc + 8 < POCOL_MEMORY_SIZE → bytesAt s s.pc 8 = pocol_write64 v →
        pocol_fetch64 s = .val v { s with pc := s.pc + 8 } := by
  intro v hv
  have hd : leDecode (pocol_write64 v) = v := by
    rw [leDecode_write64]; exact Nat.mod_eq_of_lt hv
  refine ⟨hd, ?_⟩
  intro s hpc hbytes
  unfold pocol_fetch64
  rw [if_neg (by omega), hbytes, hd]

/-- Concrete state for the C9 witness: the encoding of 300 at address 0. -/
def c9s : VMState :=
  { memory := fun a => (pocol_write64 300).getD a 0, pc := 0, stack := zeroFn, sp := 0,
    registers := zeroFn, halt := false, syscallCtx := false }

/-- Witness for C9 at the concrete value 300. -/
theorem write64_fetch64_roundtrip_witness :
    leDecode (pocol_write64 300) = 300 ∧
    pocol_fetch64 c9s = .val 300 { c9s with pc := c9s.pc + 8 } :=
  ⟨(write64_fetch64_roundtrip 300 (by norm_num)).1,
   (write64_fetch64_roundtrip 300 (by norm_num)).2 c9s (by norm_num [c9s, POCOL_MEMORY_SIZE])
     (by decide)⟩

/-- Concrete state for C3: pc on the last memory byte. -/
def c3s1 : VMState :=
  { memory := zeroFn, pc := 639999, stack := zeroFn, sp := 0, registers := zeroFn,
    halt := false, syscallCtx := false }

/-- Concrete state for C3: pc such that pc + 8 = POCOL_MEMORY_SIZE. -/
def c3s2 : VMState :=
  { memory := zeroFn, pc := 639992, stack := zeroFn, sp := 0, registers := zeroFn,
    halt := false, syscallCtx := false }

/-- C3 (code bug, evaluated at the failing inputs): with pc =
POCOL_MEMORY_SIZE - 1 the dispatcher reads its descriptor byte at address
POCOL_MEMORY_SIZE, out of bounds, instead of failing first; and with
pc + 8 = POCOL_MEMORY_SIZE (all eight operand bytes in bounds, which the
claim says is permitted) pocol_fetch64 takes its failure path, which exits
the process instead of returning the error to the caller. -/
theorem descriptor_fetch_out_of_bounds :
    pocol_execute_inst c3s1 = .oobRead 640000 ∧
    c3s1.pc = POCOL_MEMORY_SIZE - 1 ∧
    pocol_fetch64 c3s2 = .exited .ERR_ILLEGAL_INST_ACCESS ∧
    c3s2.pc + 8 ≤ POCOL_MEMORY_SIZE := by
  exact ⟨rfl, by norm_num [c3s1, POCOL_MEMORY_SIZE], rfl,
    by norm_num [c3s2, POCOL_MEMORY_SIZE]⟩

/-- Concrete state for C4: a push opcode with the stack pointer at
POCOL_STACK_SIZE. -/
def c4push : VMState :=
  { memory := fun a => if a = 0 then 1 else 0, pc := 0, stack := zeroFn, sp := 1024,
    registers := zeroFn, halt := false, syscallCtx := false }

/-- Concrete state for C4: a pop opcode with the stack pointer at 0. -/
def c4pop : VMState :=
  { memory := fun a => if a = 0 then 2 else 0, pc := 0, stack := zeroFn, sp := 0,
    registers := zeroFn, halt := false, syscallCtx := false }

/-- C4 (counterexample): push with sp = POCOL_STACK_SIZE does return
stack-overflow, and pop with sp = 0 does return stack-underflow, but in
both cases the resulting state differs from the input state: pc has
already advanced past the opcode and descriptor bytes. -/
theorem stack_guard_advances_pc :
    pocol_execute_inst c4push = .ok .ERR_STACK_OVERFLOW { c4push with pc := 2 } ∧
    ({ c4push with pc := 2 } : VMState).pc ≠ c4push.pc ∧
    pocol_execute_inst c4pop = .ok .ERR_STACK_UNDERFLOW { c4pop with pc := 2 } ∧
    ({ c4pop with pc := 2 } : VMState).pc ≠ c4pop.pc :=
  ⟨rfl, by decide, rfl, by decide⟩

/-- C4 (amended): push with a full stack returns stack-overflow and pop
with an empty stack returns stack-underflow, leaving sp, the stack, the
registers, the memory and the halt flag unchanged, but with pc advanced by
exactly 2 (the opcode and descriptor bytes fetched before the guard). -/
theorem stack_guard_state_change :
    (∀ s : VMState, s.pc + 1 < POCOL_MEMORY_SIZE → opcodeOf s = INST_PUSH →
        s.sp = POCOL_STACK_SIZE →
        pocol_execute_inst s = .ok .ERR_STACK_OVERFLOW { s with pc := s.pc + 2 }) ∧
    (∀ s : VMState, s.pc + 1 < POCOL_MEMORY_SIZE → opcodeOf s = INST_POP → s.sp = 0 →
        pocol_execute_inst s = .ok .ERR_STACK_UNDERFLOW { s with pc := s.pc + 2 }) := by
  constructor
  · intro s h1 h2 h3
    unfold pocol_execute_inst
    rw [if_neg (by omega), if_neg (by omega)]
    dsimp only
    rw [h2, if_neg (by decide), if_pos rfl, if_pos (by omega)]
  · intro s h1 h2 h3
    unfold pocol_execute_inst
    rw [if_neg (by omega), if_neg (by omega)]
    dsimp only
    rw [h2, if_neg (by decide), if_neg (by decide), if_pos rfl, if_pos h3]

/-- Witness for C4 (amended) at the concrete states. -/
theorem stack_guard_state_change_witness :
    pocol_execute_inst c4push = .ok .ERR_STACK_OVERFLOW { c4push with pc := c4push.pc + 2 } ∧
    pocol_execute_inst c4pop = .ok .ERR_STACK_UNDERFLOW { c4pop with pc := c4pop.pc + 2 } :=
  ⟨stack_guard_state_change.1 c4push (by decide) (by decide) (by decide),
   stack_guard_state_change.2 c4pop (by decide) (by decide) (by decide)⟩

/-- Concrete state for C5: opcode byte 6 (INST_SYS) with no syscall
context. -/
def c5sys : VMState :=
  { memory := fun a => if a = 0 then 6 else 0, pc := 0, stack := zeroFn, sp := 0,
    registers := zeroFn, halt := false, syscallCtx := false }

/-- Concrete state for C5: opcode byte 7. -/
def c5bad : VMState :=
  { memory := fun a => if a = 0 then 7 else 0, pc := 0, stack := zeroFn, sp := 0,
    registers := zeroFn, halt := false, syscallCtx := false }

/-- C5 (counterexample): the opcode byte 6 lies outside the claimed set
(halt..print, identities 0..5) yet a step on it returns ERR_OK (here with
a NULL syscall context the C code stores -1 into register 0), not
illegal-instruction. -/
theorem sys_opcode_not_illegal :
    opcodeOf c5sys = 6 ∧
    pocol_execute_inst c5sys =
      .ok .ERR_OK { c5sys with pc := 2, registers := updFn c5sys.registers 0 (2 ^ 64 - 1) } ∧
    Err.ERR_OK ≠ Err.ERR_ILLEGAL_INST :=
  ⟨by decide, rfl, by decide⟩

/-- C5 (amended): the numeric identities halt = 0 .. print = 5 hold, but
the instruction set of the interpreter also contains INST_SYS = 6, and a
step returns illegal-instruction exactly for opcode bytes 7 and above
(with pc advanced past the opcode and descriptor bytes). -/
theorem opcode_identities_and_illegal :
    INST_HALT = 0 ∧ INST_PUSH = 1 ∧ INST_POP = 2 ∧ INST_ADD = 3 ∧ INST_JMP = 4 ∧
    INST_PRINT = 5 ∧ INST_SYS = 6 ∧
    ∀ s : VMState, s.pc + 1 < POCOL_MEMORY_SIZE → 7 ≤ opcodeOf s →
      pocol_execute_inst s = .ok .ERR_ILLEGAL_INST { s with pc := s.pc + 2 } := by
  refine ⟨rfl, rfl, rfl, rfl, rfl, rfl, rfl, ?_⟩
  intro s h1 h2
  have e0 : ¬ opcodeOf s = INST_HALT := by simp only [INST_HALT]; omega
  have e1 : ¬ opcodeOf s = INST_PUSH := by simp only [INST_PUSH]; omega
  have e2 : ¬ opcodeOf s = INST_POP := by simp only [INST_POP]; omega
  have e3 : ¬ opcodeOf s = INST_ADD := by simp only [INST_ADD]; omega
  have e4 : ¬ opcodeOf s = INST_JMP := by simp only [INST_JMP]; omega
  have e5 : ¬ opcodeOf s = INST_PRINT := by simp only [INST_PRINT]; omega
  have e6 : ¬ opcodeOf s = INST_SYS := by simp only [INST_SYS]; omega
  unfold pocol_execute_inst
  rw [if_neg (by omega), if_neg (by omega)]
  dsimp only
  rw [if_neg e0, if_neg e1, if_neg e2, if_neg e3, if_neg e4, if_neg e5, if_neg e6]

/-- Witness for C5 (amended) at opcode byte 7. -/
theorem opcode_identities_and_illegal_witness :
    pocol_execute_inst c5bad = .ok .ERR_ILLEGAL_INST { c5bad with pc := c5bad.pc + 2 } :=
  opcode_identities_and_illegal.2.2.2.2.2.2.2 c5bad (by decide) (by decide)

/-- C10: running with a non-negative budget returns ERR_OK both when the
budget is exhausted by error-free non-halting dispatches (okSteps) and
when the machine is already halted, so the return value cannot separate
the two outcomes. -/
theorem execute_program_budget_ok :
    (∀ (n : Nat) (s sFin : VMState), okSteps s n = some sFin →
        pocol_execute_program s n = .done .ERR_OK sFin) ∧
    (∀ (s : VMState) (m : Nat), s.halt = true → pocol_execute_program s m = .done .ERR_OK s) := by
  constructor
  · intro n
    induction n with
    | zero =>
      intro s sFin h
      simp only [okSteps] at h
      split at h
      · exact Option.noConfusion h
      · injection h with h1
        rw [← h1]
        rfl
    | succ n ih =>
      intro s sFin h
      simp only [okSteps] at h
      split at h
      · exact Option.noConfusion h
      · rename_i hhalt
        cases hE : pocol_execute_inst s with
        | ok e s2 =>
          rw [hE] at h
          cases e with
          | ERR_OK =>
            have hrec := ih s2 sFin h
            simp only [pocol_execute_program]
            rw [if_neg hhalt, hE]
            exact hrec
          | ERR_ILLEGAL_INST => simp at h
          | ERR_ILLEGAL_INST_ACCESS => simp at h
          | ERR_STACK_OVERFLOW => simp at h
          | ERR_STACK_UNDERFLOW => simp at h
        | exited c => rw [hE] at h; simp at h
        | oobRead a => rw [hE] at h; simp at h
        | sysEffect s2 => rw [hE] at h; simp at h
  · intro s m h
    cases m with
    | zero => rfl
    | succ m =>
      simp only [pocol_execute_program]
      rw [if_pos h]

/-- Concrete state for the C10 witness: one add instruction. -/
def c10s : VMState :=
  { memory := fun a => if a = 0 then 3 else if a = 1 then 17 else 0, pc := 0, stack := zeroFn,
    sp := 0, registers := zeroFn, halt := false, syscallCtx := false }

/-- The state after the one dispatched add instruction of c10s. -/
def c10sRes : VMState := { c10s with pc := 4, registers := updFn c10s.registers 0 0 }

/-- Witness for C10: a budget of one error-free non-halting dispatch
returns ERR_OK. -/
theorem execute_program_budget_ok_witness :
    pocol_execute_program c10s 1 = .done .ERR_OK c10sRes :=
  execute_program_budget_ok.1 1 c10s c10sRes (by rfl)

/-- Bytes an operand slot of the given kind occupies in the stream. -/
def kindSize (k : Nat) : Nat := if k = 1 then 1 else if k = 2 then 8 else 0

/-- Operand bytes pocol_execute_inst actually consumes after the opcode
and descriptor, per opcode: push, jmp and print fetch one operand by its
descriptor kind; pop always reads exactly one register byte; add reads one
register byte and then its second operand by kind; halt and sys read
none. -/
def consumedOperandBytes (op desc : Nat) : Nat :=
  if op = INST_PUSH then kindSize (desc % 16)
  else if op = INST_POP then 1
  else if op = INST_ADD then 1 + kindSize (desc / 16)
  else if op = INST_JMP then kindSize (desc % 16)
  else if op = INST_PRINT then kindSize (desc % 16)
  else 0

lemma fetch_operand_val {s : VMState} {ty v : Nat} {s3 : VMState}
    (h : pocol_fetch_operand s ty = .val v s3) :
    s3 = { s with pc := s.pc + kindSize ty } := by
  unfold pocol_fetch_operand at h
  unfold kindSize
  split at h
  · rename_i hty
    split at h
    · exact FetchRes.noConfusion h
    · injection h with h1 h2
      rw [← h2, hty]
      simp [OPR_REG]
  · split at h
    · rename_i hty1 hty2
      unfold pocol_fetch64 at h
      split at h
      · exact FetchRes.noConfusion h
      · injection h with h1 h2
        rw [← h2, hty2]
        simp only [OPR_IMM, OPR_REG] at *
        simp [hty1]
    · rename_i hty1 hty2
      injection h with h1 h2
      rw [← h2]
      simp only [OPR_REG] at hty1
      simp only [OPR_IMM] at hty2
      rw [if_neg hty1, if_neg hty2]
      cases s
      simp

/-- C7 (amended): for every step that returns ERR_OK, sp changes by
exactly +1 for push, -1 for pop and 0 otherwise; for every opcode except
jmp, pc advances by exactly 2 + the operand bytes the instruction consumes
(consumedOperandBytes); for jmp, the operand is consumed the same way and
pc is then set to the fetched target; a sys dispatch with a live context
reaches the host with pc advanced by 2 and sp unchanged. -/
theorem step_pc_sp_change :
    (∀ s s2 : VMState, pocol_execute_inst s = .ok .ERR_OK s2 →
      (s2.sp = if opcodeOf s = INST_PUSH then s.sp + 1
               else if opcodeOf s = INST_POP then s.sp - 1 else s.sp) ∧
      (opcodeOf s ≠ INST_JMP →
        s2.pc = s.pc + 2 + consumedOperandBytes (opcodeOf s) (descOf s)) ∧
      (opcodeOf s = INST_JMP → ∃ s3 : VMState,
        pocol_fetch_operand { s with pc := s.pc + 2 } (descOf s % 16) = .val s2.pc s3 ∧
        s3.pc = s.pc + 2 + consumedOperandBytes INST_JMP (descOf s))) ∧
    (∀ s s2 : VMState, pocol_execute_inst s = .sysEffect s2 →
      s2.pc = s.pc + 2 ∧ s2.sp = s.sp) := by
  constructor
  · intro s s2 h
    unfold pocol_execute_inst at h
    by_cases hm : s.pc ≥ POCOL_MEMORY_SIZE
    · rw [if_pos hm] at h
      exact absurd h (by simp)
    rw [if_neg hm] at h
    by_cases hm2 : s.pc + 1 ≥ POCOL_MEMORY_SIZE
    · rw [if_pos hm2] at h
      exact absurd h (by simp)
    rw [if_neg hm2] at h
    dsimp only at h
    by_cases h0 : opcodeOf s = INST_HALT
    · -- halt
      rw [if_pos h0] at h
      injection h with hh1 hh2
      rw [← hh2, h0]
      refine ⟨by simp [INST_HALT, INST_PUSH, INST_POP], ?_, ?_⟩
      · intro _
        simp [consumedOperandBytes, INST_HALT, INST_PUSH, INST_POP, INST_ADD, INST_JMP,
          INST_PRINT, INST_SYS]
      · intro hj
        exact absurd hj (by decide)
    rw [if_neg h0] at h
    by_cases h1 : opcodeOf s = INST_PUSH
    · -- push
      rw [if_pos h1] at h
      by_cases hsp : s.sp ≥ POCOL_STACK_SIZE
      · rw [if_pos hsp] at h
        exact absurd h (by simp)
      rw [if_neg hsp] at h
      cases heq : pocol_fetch_operand { s with pc := s.pc + 2 } (descOf s % 16) with
      | val v s3 =>
        rw [heq] at h
        dsimp only at h
        have hs3 := fetch_operand_val heq
        injection h with hh1 hh2
        rw [← hh2, h1]
        refine ⟨by simp [hs3, INST_PUSH], ?_, ?_⟩
        · intro _
          simp [hs3, consumedOperandBytes, INST_PUSH, INST_POP, INST_ADD, INST_JMP,
            INST_PRINT, INST_SYS]
        · intro hj
          exact absurd hj (by decide)
      | exited c =>
        rw [heq] at h
        exact absurd h (by simp)
      | oob a =>
        rw [heq] at h
        exact absurd h (by simp)
    rw [if_neg h1] at h
    by_cases h2p : opcodeOf s = INST_POP
    · -- pop
      rw [if_pos h2p] at h
      by_cases hsp : s.sp = 0
      · rw [if_pos hsp] at h
        exact absurd h (by simp)
      rw [if_neg hsp] at h
      by_cases hpc3 : s.pc + 2 ≥ POCOL_MEMORY_SIZE
      · rw [if_pos hpc3] at h
        exact absurd h (by simp)
      rw [if_neg hpc3] at h
      injection h with hh1 hh2
      rw [← hh2, h2p]
      refine ⟨by simp [INST_POP, INST_PUSH], ?_, ?_⟩
      · intro _
        simp [consumedOperandBytes, INST_POP, INST_PUSH, INST_HALT, INST_ADD, INST_JMP,
          INST_PRINT, INST_SYS]
      · intro hj
        exact absurd hj (by decide)
    rw [if_neg h2p] at h
    by_cases h3a : opcodeOf s = INST_ADD
    · -- add
      rw [if_pos h3a] at h
      by_cases hpc3 : s.pc + 2 ≥ POCOL_MEMORY_SIZE
      · rw [if_pos hpc3] at h
        exact absurd h (by simp)
      rw [if_neg hpc3] at h
      cases heq : pocol_fetch_operand { s with pc := s.pc + 2 + 1 } (descOf s / 16) with
      | val v s4 =>
        rw [heq] at h
        dsimp only at h
        have hs4 := fetch_operand_val heq
        injection h with hh1 hh2
        rw [← hh2, h3a]
        refine ⟨by simp [hs4, INST_ADD, INST_PUSH, INST_POP], ?_, ?_⟩
        · intro _
          simp [hs4, consumedOperandBytes, INST_ADD, INST_PUSH, INST_POP, INST_HALT,
            INST_JMP, INST_PRINT, INST_SYS]
          omega
        · intro hj
          exact absurd hj (by decide)
      | exited c =>
        rw [heq] at h
        exact absurd h (by simp)
      | oob a =>
        rw [heq] at h
        exact absurd h (by simp)
    rw [if_neg h3a] at h
    by_cases h4j : opcodeOf s = INST_JMP
    · -- jmp
      rw [if_pos h4j] at h
      cases heq : pocol_fetch_operand { s with pc := s.pc + 2 } (descOf s % 16) with
      | val v s3 =>
        rw [heq] at h
        dsimp only at h
        have hs3 := fetch_operand_val heq
        injection h with hh1 hh2
        rw [← hh2, h4j]
        refine ⟨by simp [hs3, INST_JMP, INST_PUSH, INST_POP], ?_, ?_⟩
        · intro hj
          exact absurd rfl hj
        · intro _
          refine ⟨s3, rfl, ?_⟩
          simp [hs3, consumedOperandBytes, INST_JMP, INST_PUSH, INST_POP, INST_HALT,
            INST_ADD, INST_PRINT, INST_SYS]
      | exited c =>
        rw [heq] at h
        exact absurd h (by simp)
      | oob a =>
        rw [heq] at h
        exact absurd h (by simp)
    rw [if_neg h4j] at h
    by_cases h5p : opcodeOf s = INST_PRINT
    · -- print
      rw [if_pos h5p] at h
      cases heq : pocol_fetch_operand { s with pc := s.pc + 2 } (descOf s % 16) with
      | val v s3 =>
        rw [heq] at h
        dsimp only at h
        have hs3 := fetch_operand_val heq
        injection h with hh1 hh2
        rw [← hh2, h5p]
        refine ⟨by simp [hs3, INST_PRINT, INST_PUSH, INST_POP], ?_, ?_⟩
        · intro _
          simp [hs3, consumedOperandBytes, INST_PRINT, INST_PUSH, INST_POP, INST_ADD,
            INST_JMP, INST_HALT, INST_SYS]
        · intro hj
          exact absurd hj (by decide)
      | exited c =>
        rw [heq] at h
        exact absurd h (by simp)
      | oob a =>
        rw [heq] at h
        exact absurd h (by simp)
    rw [if_neg h5p] at h
    by_cases h6s : opcodeOf s = INST_SYS
    · -- sys
      rw [if_pos h6s] at h
      by_cases hctx : ({ s with pc := s.pc + 2 } : VMState).syscallCtx = true
      · rw [if_pos hctx] at h
        exact absurd h (by simp)
      rw [if_neg hctx] at h
      injection h with hh1 hh2
      rw [← hh2, h6s]
      refine ⟨by simp [INST_SYS, INST_PUSH, INST_POP], ?_, ?_⟩
      · intro _
        simp [consumedOperandBytes, INST_SYS, INST_PUSH, INST_POP, INST_ADD, INST_JMP,
          INST_PRINT, INST_HALT]
      · intro hj
        exact absurd hj (by decide)
    rw [if_neg h6s] at h
    exact absurd h (by simp)
  · intro s s2 h
    unfold pocol_execute_inst at h
    by_cases hm : s.pc ≥ POCOL_MEMORY_SIZE
    · rw [if_pos hm] at h
      exact absurd h (by simp)
    rw [if_neg hm] at h
    by_cases hm2 : s.pc + 1 ≥ POCOL_MEMORY_SIZE
    · rw [if_pos hm2] at h
      exact absurd h (by simp)
    rw [if_neg hm2] at h
    dsimp only at h
    by_cases h0 : opcodeOf s = INST_HALT
    · rw [if_pos h0] at h
      exact absurd h (by simp)
    rw [if_neg h0] at h
    by_cases h1 : opcodeOf s = INST_PUSH
    · rw [if_pos h1] at h
      by_cases hsp : s.sp ≥ POCOL_STACK_SIZE
      · rw [if_pos hsp] at h
        exact absurd h (by simp)
      rw [if_neg hsp] at h
      cases heq : pocol_fetch_operand { s with pc := s.pc + 2 } (descOf s % 16) with
      | val v s3 => rw [heq] at h; exact absurd h (by simp)
      | exited c => rw [heq] at h; exact absurd h (by simp)
      | oob a => rw [heq] at h; exact absurd h (by simp)
    rw [if_neg h1] at h
    by_cases h2p : opcodeOf s = INST_POP
    · rw [if_pos h2p] at h
      by_cases hsp : s.sp = 0
      · rw [if_pos hsp] at h
        exact absurd h (by simp)
      rw [if_neg hsp] at h
      by_cases hpc3 : s.pc + 2 ≥ POCOL_MEMORY_SIZE
      · rw [if_pos hpc3] at h
        exact absurd h (by simp)
      rw [if_neg hpc3] at h
      exact absurd h (by simp)
    rw [if_neg h2p] at h
    by_cases h3a : opcodeOf s = INST_ADD
    · rw [if_pos h3a] at h
      by_cases hpc3 : s.pc + 2 ≥ POCOL_MEMORY_SIZE
      · rw [if_pos hpc3] at h
        exact absurd h (by simp)
      rw [if_neg hpc3] at h
      cases heq : pocol_fetch_operand { s with pc := s.pc + 2 + 1 } (descOf s / 16) with
      | val v s4 => rw [heq] at h; exact absurd h (by simp)
      | exited c => rw [heq] at h; exact absurd h (by simp)
      | oob a => rw [heq] at h; exact absurd h (by simp)
    rw [if_neg h3a] at h
    by_cases h4j : opcodeOf s = INST_JMP
    · rw [if_pos h4j] at h
      cases heq : pocol_fetch_operand { s with pc := s.pc + 2 } (descOf s % 16) with
      | val v s3 => rw [heq] at h; exact absurd h (by simp)
      | exited c => rw [heq] at h; exact absurd h (by simp)
      | oob a => rw [heq] at h; exact absurd h (by simp)
    rw [if_neg h4j] at h
    by_cases h5p : opcodeOf s = INST_PRINT
    · rw [if_pos h5p] at h
      cases heq : pocol_fetch_operand { s with pc := s.pc + 2 } (descOf s % 16) with
      | val v s3 => rw [heq] at h; exact absurd h (by simp)
      | exited c => rw [heq] at h; exact absurd h (by simp)
      | oob a => rw [heq] at h; exact absurd h (by simp)
    rw [if_neg h5p] at h
    by_cases h6s : opcodeOf s = INST_SYS
    · rw [if_pos h6s] at h
      by_cases hctx : ({ s with pc := s.pc + 2 } : VMState).syscallCtx = true
      · rw [if_pos hctx] at h
        injection h with hh1
        rw [← hh1]
        exact ⟨rfl, rfl⟩
      · rw [if_neg hctx] at h
        exact absurd h (by simp)
    rw [if_neg h6s] at h
    exact absurd h (by simp)

/-- Concrete state for the C7 counterexample: jmp with an imm operand
whose value is 0. -/
def c7jmp : VMState :=
  { memory := fun a => if a = 0 then 4 else if a = 1 then 2 else 0, pc := 0, stack := zeroFn,
    sp := 0, registers := zeroFn, halt := false, syscallCtx := false }

/-- C7 (counterexample): a jmp step returns ERR_OK, its encoded byte
length is 2 + 8 = 10 (imm operand), yet pc afterwards is the jump target
0, not pc + 10. -/
theorem jmp_pc_not_length :
    pocol_execute_inst c7jmp = .ok .ERR_OK { c7jmp with pc := 0 } ∧
    opcodeOf c7jmp = INST_JMP ∧ descOf c7jmp = OPR_IMM ∧
    ({ c7jmp with pc := 0 } : VMState).pc ≠ c7jmp.pc + 2 + 8 :=
  ⟨rfl, by decide, by decide, by decide⟩

/-- Concrete state for the C7 witness: a halt instruction. -/
def c7halt : VMState :=
  { memory := zeroFn, pc := 0, stack := zeroFn, sp := 0, registers := zeroFn,
    halt := false, syscallCtx := false }

/-- The state after the halt step of c7halt. -/
def c7haltRes : VMState := { c7halt with pc := 2, halt := true }

/-- Witness for C7 (amended) at the halt step. -/
theorem step_pc_sp_change_witness :
    (c7haltRes.sp = if opcodeOf c7halt = INST_PUSH then c7halt.sp + 1
                    else if opcodeOf c7halt = INST_POP then c7halt.sp - 1 else c7halt.sp) ∧
    (opcodeOf c7halt ≠ INST_JMP →
      c7haltRes.pc = c7halt.pc + 2 + consumedOperandBytes (opcodeOf c7halt) (descOf c7halt)) ∧
    (opcodeOf c7halt = INST_JMP → ∃ s3 : VMState,
      pocol_fetch_operand { c7halt with pc := c7halt.pc + 2 } (descOf c7halt % 16) =
        .val c7haltRes.pc s3 ∧
      s3.pc = c7halt.pc + 2 + consumedOperandBytes INST_JMP (descOf c7halt)) :=
  step_pc_sp_change.1 c7halt c7haltRes (by rfl)

end PocolVM

namespace Posm

/-! Theorems about the assembler. -/

/-- C6 (counterexample): the maximal run "rx" begins with r followed by a
non-digit, so the claim classifies it as an identifier, but next produces
a register token (of value 0). -/
theorem r_prefix_register_token :
    (next ("rx".toList) { cursor := 0, line := 1, col := 1 }).1.type = .TOK_REGISTER ∧
    charAt ("rx".toList) 0 = 'r' ∧
    isDigitC (charAt ("rx".toList) 1) = false ∧
    (next ("rx".toList) { cursor := 0, line := 1, col := 1 }).1.type ≠ .TOK_IDENT := by
  decide

/-- C6 (amended): every register token produced by next starts with the
character r, and its value is the decimal run after the r when a digit
follows and 0 otherwise; every identifier token starts with a letter or
underscore other than r (so a run beginning with r followed by a non-digit
is a register token of value 0, not an identifier). -/
theorem register_classification :
    ∀ (src : List Char) (l : LexState) (t : Token) (l2 : LexState) (es : List AsmErr),
      next src l = (t, l2, es) →
      (t.type = .TOK_REGISTER →
        charAt src t.start = 'r' ∧
        t.value = (if isDigitC (charAt src (t.start + 1)) then atoiAt src (t.start + 1) else 0)) ∧
      (t.type = .TOK_IDENT →
        (isAlphaC (charAt src t.start) || charAt src t.start = '_') = true ∧
        charAt src t.start ≠ 'r') := by
  intro src l t l2 es h
  unfold next at h
  dsimp only at h
  by_cases hnul : charAt src (skipWs src l).cursor = Char.ofNat 0
  · rw [if_pos hnul] at h
    injection h with h1 h2
    rw [← h1]
    exact ⟨fun hx => (nomatch hx), fun hx => (nomatch hx)⟩
  rw [if_neg hnul] at h
  by_cases hint : (isDigitC (charAt src (skipWs src l).cursor) ||
      (charAt src (skipWs src l).cursor = '-' &&
        isDigitC (charAt src ((skipWs src l).cursor + 1)))) = true
  · rw [if_pos hint] at h
    injection h with h1 h2
    rw [← h1]
    exact ⟨fun hx => (nomatch hx), fun hx => (nomatch hx)⟩
  rw [if_neg hint] at h
  by_cases halpha : (isAlphaC (charAt src (skipWs src l).cursor) ||
      charAt src (skipWs src l).cursor = '_') = true
  · rw [if_pos halpha] at h
    by_cases hcolon : charAt src (identEnd src (skipWs src l)).cursor = ':'
    · rw [if_pos hcolon] at h
      injection h with h1 h2
      rw [← h1]
      exact ⟨fun hx => (nomatch hx), fun hx => (nomatch hx)⟩
    rw [if_neg hcolon] at h
    by_cases hr : charAt src (skipWs src l).cursor = 'r'
    · rw [if_pos hr] at h
      injection h with h1 h2
      rw [← h1]
      refine ⟨fun _ => ⟨hr, rfl⟩, fun hx => (nomatch hx)⟩
    · rw [if_neg hr] at h
      injection h with h1 h2
      rw [← h1]
      exact ⟨fun hx => (nomatch hx), fun _ => ⟨halpha, hr⟩⟩
  · rw [if_neg halpha] at h
    injection h with h1 h2
    rw [← h1]
    exact ⟨fun hx => (nomatch hx), fun hx => (nomatch hx)⟩

/-- Witness for C6 (amended) at the source "rx". -/
theorem register_classification_witness :
    ((⟨.TOK_REGISTER, 0, 0, 0⟩ : Token).type = .TOK_REGISTER →
      charAt ("rx".toList) 0 = 'r' ∧
      (⟨.TOK_REGISTER, 0, 0, 0⟩ : Token).value =
        (if isDigitC (charAt ("rx".toList) 1) then atoiAt ("rx".toList) 1 else 0)) ∧
    ((⟨.TOK_REGISTER, 0, 0, 0⟩ : Token).type = .TOK_IDENT →
      (isAlphaC (charAt ("rx".toList) 0) || charAt ("rx".toList) 0 = '_') = true ∧
      charAt ("rx".toList) 0 ≠ 'r') :=
  register_classification ("rx".toList) { cursor := 0, line := 1, col := 1 }
    ⟨.TOK_REGISTER, 0, 0, 0⟩ { cursor := 2, line := 1, col := 3 } [] (by decide)

lemma next_errs_cases :
    ∀ (src : List Char) (l : LexState) (t : Token) (l2 : LexState) (es : List AsmErr),
      next src l = (t, l2, es) →
      es = [] ∨ es = [AsmErr.intOutOfRange] ∨ ∃ c, es = [AsmErr.illegalChar c] := by
  intro src l t l2 es h
  unfold next at h
  dsimp only at h
  by_cases hnul : charAt src (skipWs src l).cursor = Char.ofNat 0
  · rw [if_pos hnul] at h
    injection h with h1 h2
    injection h2 with h3 h4
    exact Or.inl h4.symm
  rw [if_neg hnul] at h
  by_cases hint : (isDigitC (charAt src (skipWs src l).cursor) ||
      (charAt src (skipWs src l).cursor = '-' &&
        isDigitC (charAt src ((skipWs src l).cursor + 1)))) = true
  · rw [if_pos hint] at h
    injection h with h1 h2
    injection h2 with h3 h4
    by_cases her : (strtolAt src (skipWs src l).cursor).2.2 = true
    · rw [if_pos her] at h4
      exact Or.inr (Or.inl h4.symm)
    · rw [if_neg her] at h4
      exact Or.inl h4.symm
  rw [if_neg hint] at h
  by_cases halpha : (isAlphaC (charAt src (skipWs src l).cursor) ||
      charAt src (skipWs src l).cursor = '_') = true
  · rw [if_pos halpha] at h
    by_cases hcolon : charAt src (identEnd src (skipWs src l)).cursor = ':'
    · rw [if_pos hcolon] at h
      injection h with h1 h2
      injection h2 with h3 h4
      exact Or.inl h4.symm
    rw [if_neg hcolon] at h
    by_cases hr : charAt src (skipWs src l).cursor = 'r'
    · rw [if_pos hr] at h
      injection h with h1 h2
      injection h2 with h3 h4
      exact Or.inl h4.symm
    · rw [if_neg hr] at h
      injection h with h1 h2
      injection h2 with h3 h4
      exact Or.inl h4.symm
  · rw [if_neg halpha] at h
    injection h with h1 h2
    injection h2 with h3 h4
    exact Or.inr (Or.inr ⟨charAt src (skipWs src l).cursor, h4.symm⟩)

/-- C1 (amended): inside the operand-emission loop of parse_inst (the
assembler is single pass), an identifier operand is classified OPR_IMM,
and it resolves through the symbol table: when a label with its name is
already in the table (that is, defined earlier in the source), the
emitted bytes are exactly pocol_write64 of that label address and no
identifier-not-defined diagnostic is added; when the table has no such
label (whether it is defined later or not at all), the
identifier-not-defined diagnostic is emitted. -/
theorem ident_operand_resolution :
    ∀ (src : List Char) (st : PState) (n : List Char),
      st.look.type = .TOK_IDENT → tokStr src st.look = n →
      operandKindOf st.look = PocolVM.OPR_IMM ∧
      (∀ sd : SymData, pocol_symfind st.syms .SYM_LABEL n = some sd →
        (emitOperandStep src st PocolVM.OPR_IMM).out = st.out ++ PocolVM.pocol_write64 sd.pc ∧
        ∃ es, (emitOperandStep src st PocolVM.OPR_IMM).errs = st.errs ++ es ∧
          ∀ m, AsmErr.identNotDefined m ∉ es) ∧
      (pocol_symfind st.syms .SYM_LABEL n = none →
        ∃ es, (emitOperandStep src st PocolVM.OPR_IMM).errs =
          st.errs ++ AsmErr.identNotDefined n :: es) := by
  intro src st n hid hn
  refine ⟨by simp [operandKindOf, hid, PocolVM.OPR_IMM], ?_, ?_⟩
  · intro sd hfind
    constructor
    · simp [emitOperandStep, hid, hn, hfind, PocolVM.OPR_IMM]
    · refine ⟨(next src st.lex).2.2, ?_, ?_⟩
      · simp [emitOperandStep, hid, hn, hfind, PocolVM.OPR_IMM]
      · intro m hm
        rcases next_errs_cases src st.lex (next src st.lex).1 (next src st.lex).2.1
            (next src st.lex).2.2 rfl with h0 | h0 | ⟨c, h0⟩ <;> rw [h0] at hm <;> simp at hm
  · intro hfind
    refine ⟨(next src (consume_until_newline src st.lex)).2.2, ?_⟩
    simp [emitOperandStep, hid, hn, hfind, PocolVM.OPR_IMM]

/-- C1 (counterexample): in the source "push fwd" followed by "fwd:", the
operand fwd names a label that is defined later in the file (and indeed
ends up in the symbol table, at address 14), yet assembly fails with the
identifier-not-defined diagnostic and emits 0 as the operand, because the
single-pass compiler looks the identifier up before the label line is
reached. -/
theorem forward_reference_fails :
    pocol_compile_file ("push fwd\nfwd:".toList) 16 =
      some { ret := -1,
             out := [112, 111, 99, 111, 1, 2, 0, 0, 0, 0, 0, 0, 0, 0],
             errs := [.identNotDefined ("fwd".toList), .compileFailed 1],
             kept := false,
             syms := [{ name := "fwd".toList, kind := .SYM_LABEL, pc := 14,
                        is_defined := true }] } := by
  decide

/-- Parser state for the C1 witness: lookahead is the identifier lbl of
the source "push lbl", and the symbol table maps label lbl to 14. -/
def c1st : PState :=
  { lex := { cursor := 8, line := 1, col := 9 },
    look := { type := .TOK_IDENT, start := 5, length := 3, value := 0 },
    syms := [{ name := "lbl".toList, kind := .SYM_LABEL, pc := 14, is_defined := true }],
    out := [1, 2], errs := [] }

/-- The symbol-table entry of the C1 witness. -/
def c1sd : SymData :=
  { name := "lbl".toList, kind := .SYM_LABEL, pc := 14, is_defined := true }

/-- Witness for C1 (amended) at a resolvable identifier operand. -/
theorem ident_operand_resolution_witness :
    operandKindOf c1st.look = PocolVM.OPR_IMM ∧
    (emitOperandStep ("push lbl".toList) c1st PocolVM.OPR_IMM).out =
      c1st.out ++ PocolVM.pocol_write64 c1sd.pc := by
  have h := ident_operand_resolution ("push lbl".toList) c1st ("lbl".toList)
    (by decide) (by decide)
  exact ⟨h.1, (h.2.1 c1sd (by decide)).1⟩

lemma exists_append_trans {x y z : List Nat} (h1 : ∃ t, y = x ++ t) (h2 : ∃ t, z = y ++ t) :
    ∃ t, z = x ++ t := by
  obtain ⟨t1, ht1⟩ := h1
  obtain ⟨t2, ht2⟩ := h2
  exact ⟨t1 ++ t2, by rw [ht2, ht1, List.append_assoc]⟩

lemma emitOperandStep_out (src : List Char) (st : PState) (ty : Nat) :
    ∃ t, (emitOperandStep src st ty).out = st.out ++ t :=
  ⟨_, rfl⟩

lemma parse_inst_out {src : List Char} {st : PState} {r : Int} {st2 : PState}
    (h : parse_inst src st = some (r, st2)) : ∃ t, st2.out = st.out ++ t := by
  unfold parse_inst at h
  cases hs : searchInst (tokStr src st.look) with
  | ubNullName =>
    rw [hs] at h
    exact Option.noConfusion h
  | notFound =>
    rw [hs] at h
    injection h with h1
    injection h1 with hr hst
    exact ⟨[], by rw [← hst]; simp⟩
  | found d =>
    rw [hs] at h
    dsimp only at h
    injection h with h1
    injection h1 with hr hst
    rw [← hst]
    split
    · exact ⟨_, rfl⟩
    · split
      · exact exists_append_trans ⟨_, rfl⟩ (emitOperandStep_out src _ _)
      · exact exists_append_trans (exists_append_trans ⟨_, rfl⟩ (emitOperandStep_out src _ _))
          (emitOperandStep_out src _ _)

lemma compileStep_out {src : List Char} {st st2 : PState}
    (h : compileStep src st = some st2) : ∃ t, st2.out = st.out ++ t := by
  unfold compileStep at h
  by_cases hl : st.look.type = .TOK_LABEL
  · rw [if_pos hl] at h
    dsimp only at h
    injection h with h1
    exact ⟨[], by rw [← h1]; simp⟩
  rw [if_neg hl] at h
  by_cases hi : st.look.type = .TOK_IDENT
  · rw [if_pos hi] at h
    cases hp : parse_inst src st with
    | none =>
      rw [hp] at h
      exact Option.noConfusion h
    | some pr =>
      obtain ⟨r, st3⟩ := pr
      rw [hp] at h
      dsimp only at h
      obtain ⟨t1, ht1⟩ := parse_inst_out hp
      by_cases hr : r = 0
      · rw [if_pos hr] at h
        injection h with h1
        exact ⟨t1, by rw [← h1]; exact ht1⟩
      rw [if_neg hr] at h
      cases hf : pocol_symfind st3.syms .SYM_LABEL (tokStr src st.look) with
      | some sd =>
        rw [hf] at h
        dsimp only at h
        injection h with h1
        refine ⟨t1 ++ PocolVM.pocol_write64 sd.pc, ?_⟩
        rw [← h1]
        dsimp only
        rw [ht1, List.append_assoc]
      | none =>
        rw [hf] at h
        dsimp only at h
        injection h with h1
        exact ⟨t1, by rw [← h1]; exact ht1⟩
  rw [if_neg hi] at h
  injection h with h1
  exact ⟨[], by rw [← h1]; simp⟩

lemma compileLoop_out {src : List Char} :
    ∀ (f : Nat) (st stF : PState), compileLoop src f st = .done stF →
      ∃ t, stF.out = st.out ++ t := by
  intro f
  induction f with
  | zero =>
    intro st stF h
    exact CompRes.noConfusion h
  | succ f ih =>
    intro st stF h
    rw [compileLoop] at h
    by_cases he : st.look.type = .TOK_EOF
    · rw [if_pos he] at h
      injection h with h1
      exact ⟨[], by rw [← h1]; simp⟩
    rw [if_neg he] at h
    cases hc : compileStep src st with
    | none =>
      rw [hc] at h
      exact CompRes.noConfusion h
    | some st2 =>
      rw [hc] at h
      dsimp only at h
      obtain ⟨t1, ht1⟩ := compileStep_out hc
      obtain ⟨t2, ht2⟩ := ih st2 stF h
      exact ⟨t1 ++ t2, by rw [ht2, ht1, List.append_assoc]⟩

/-- C2 (amended): the assembler never looks for a label _start: whether
pocol_compile_file succeeds is decided solely by the diagnostic count (it
returns 0 and keeps the output file exactly when no diagnostic was
emitted), and the header of the emitted object is just the four magic
bytes, with no entry-point field. -/
theorem compile_success_iff_no_diagnostics :
    ∀ (src : List Char) (fuel : Nat) (r : CompileOut),
      pocol_compile_file src fuel = some r →
      (r.ret = 0 ↔ r.errs = []) ∧ (r.kept = true ↔ r.ret = 0) ∧ r.out.take 4 = magicBytes := by
  intro src fuel r h
  unfold pocol_compile_file at h
  dsimp only at h
  split at h
  · rename_i st hc
    injection h with h1
    obtain ⟨t, ht⟩ := compileLoop_out fuel _ st hc
    dsimp only at ht
    have htake : st.out.take 4 = magicBytes := by
      rw [ht, show (4 : Nat) = magicBytes.length from rfl]
      exact List.take_left magicBytes t
    rw [← h1]
    unfold postprocess
    by_cases he : st.errs.length > 0
    · rw [if_pos he]
      refine ⟨?_, ?_, htake⟩
      · constructor
        · intro hx
          exact absurd hx (by norm_num)
        · intro hx
          rcases List.append_eq_nil.mp hx with ⟨_, hx2⟩
          exact absurd hx2 (by simp)
      · constructor
        · intro hx
          exact absurd hx (by simp)
        · intro hx
          exact absurd hx (by norm_num)
    · rw [if_neg he]
      have hnil : st.errs = [] := List.length_eq_zero.mp (by omega)
      exact ⟨⟨fun _ => hnil, fun _ => rfl⟩, ⟨fun _ => rfl, fun _ => rfl⟩, htake⟩
  · exact Option.noConfusion h

/-- The result of assembling the source "halt" (which defines no _start
label). -/
def c2out : CompileOut :=
  { ret := 0, out := [112, 111, 99, 111, 0, 0], errs := [], kept := true, syms := [] }

/-- C2 (counterexample): the source "halt" defines no label _start, yet
pocol_compile_file succeeds: it returns 0, keeps the output (the object is
the 4 magic bytes followed by the encoded halt), and emits no diagnostic
at all, in particular no undefined-reference-to-_start error. -/
theorem no_start_source_compiles :
    pocol_compile_file ("halt".toList) 10 = some c2out := by
  decide

/-- Witness for C2 (amended) at the source "halt". -/
theorem compile_success_iff_no_diagnostics_witness :
    (c2out.ret = 0 ↔ c2out.errs = []) ∧ (c2out.kept = true ↔ c2out.ret = 0) ∧
    c2out.out.take 4 = magicBytes :=
  compile_success_iff_no_diagnostics ("halt".toList) 10 c2out (by decide)

lemma symfind_append_self (tbl : List SymData) (d : SymData)
    (h : pocol_symfind tbl d.kind d.name = none) :
    pocol_symfind (tbl ++ [d]) d.kind d.name = some d := by
  induction tbl with
  | nil =>
    simp [pocol_symfind]
  | cons e rest ih =>
    rw [pocol_symfind] at h
    split at h
    · exact Option.noConfusion h
    · rename_i hne
      rw [List.cons_append, pocol_symfind, if_neg hne]
      exact ih h

/-- C8: pocol_sympush returns -1 with the table unchanged exactly when a
symbol with the same kind and name is already present; otherwise it
appends and returns 0, after which pocol_symfind with that kind and name
returns the pushed symbol; and in the compile loop, a label definition
whose name is already in the symbol table produces the duplicate-label
diagnostic (at that second occurrence) and leaves the table unchanged. -/
theorem sympush_duplicate_spec :
    (∀ (tbl : List SymData) (d : SymData),
      pocol_sympush tbl d = (-1, tbl) ↔ (pocol_symfind tbl d.kind d.name).isSome = true) ∧
    (∀ (tbl : List SymData) (d : SymData),
      pocol_symfind tbl d.kind d.name = none →
      pocol_sympush tbl d = (0, tbl ++ [d]) ∧
      pocol_symfind (tbl ++ [d]) d.kind d.name = some d) ∧
    (∀ (src : List Char) (st : PState) (n : List Char),
      st.look.type = .TOK_LABEL → tokStr src st.look = n →
      (pocol_symfind st.syms .SYM_LABEL n).isSome = true →
      ∃ st2, compileStep src st = some st2 ∧ st2.syms = st.syms ∧
        ∃ es, st2.errs = st.errs ++ AsmErr.duplicateLabel n :: es) := by
  refine ⟨?_, ?_, ?_⟩
  · intro tbl d
    unfold pocol_sympush
    by_cases hf : (pocol_symfind tbl d.kind d.name).isSome = true
    · rw [if_pos hf]
      exact ⟨fun _ => hf, fun _ => rfl⟩
    · rw [if_neg hf]
      constructor
      · intro hx
        injection hx with hx1
        exact absurd hx1 (by norm_num)
      · intro hx
        exact absurd hx hf
  · intro tbl d hf
    have hb : (pocol_symfind tbl d.kind d.name).isSome = false := by
      rw [hf]; rfl
    constructor
    · unfold pocol_sympush
      rw [if_neg (by rw [hb]; exact Bool.false_ne_true)]
    · exact symfind_append_self tbl d hf
  · intro src st n hl hn hf
    unfold compileStep
    rw [if_pos hl]
    dsimp only
    unfold pocol_sympush
    dsimp only
    rw [hn, if_pos hf]
    dsimp only
    rw [if_pos rfl, if_pos rfl]
    refine ⟨_, rfl, rfl, ?_⟩
    dsimp only
    refine ⟨(next src (consume_until_newline src
      (consume_until_newline src st.lex))).2.2, ?_⟩
    simp

/-- A table and symbol for the C8 witness. -/
def c8sd : SymData :=
  { name := "loop".toList, kind := .SYM_LABEL, pc := 4, is_defined := true }

/-- Parser state for the C8 witness: lookahead is the second definition of
the label loop in the source "loop:loop:", with loop already in the
table. -/
def c8st : PState :=
  { lex := { cursor := 10, line := 1, col := 11 },
    look := { type := .TOK_LABEL, start := 5, length := 4, value := 0 },
    syms := [c8sd], out := magicBytes, errs := [] }

/-- Witness for C8 at a concrete table and a concrete duplicate label. -/
theorem sympush_duplicate_spec_witness :
    (pocol_sympush [c8sd] c8sd = (-1, [c8sd]) ↔
      (pocol_symfind [c8sd] c8sd.kind c8sd.name).isSome = true) ∧
    (pocol_sympush [] c8sd = (0, [] ++ [c8sd]) ∧
      pocol_symfind ([] ++ [c8sd]) c8sd.kind c8sd.name = some c8sd) ∧
    ∃ st2, compileStep ("loop:loop:".toList) c8st = some st2 ∧ st2.syms = c8st.syms ∧
      ∃ es, st2.errs = c8st.errs ++ AsmErr.duplicateLabel ("loop".toList) :: es :=
  ⟨sympush_duplicate_spec.1 [c8sd] c8sd,
   sympush_duplicate_spec.2.1 [] c8sd (by decide),
   sympush_duplicate_spec.2.2 ("loop:loop:".toList) c8st ("loop".toList)
     (by decide) (by decide) (by decide)⟩

end Posm

